import Mathlib

/-!
Verification of the mark-and-sweep garbage collector core of the tei
repository (src/src/mem). The engine state, the allocation header bits and
the collection phases are embedded as pure Lean functions translated from
src/src/mem/context.rs, src/src/mem/ptr.rs and src/src/mem/gc.rs; debug
assertions of the Rust source are no-ops in release builds and are embedded
as no-ops here. Pointer-identity of allocations is modelled by giving every
allocation a numeric id and keeping all allocation records in a store
indexed by id; the intrusive next links of the allocation list live inside
the headers exactly as in the source. Two ghost observer fields (dropCount,
freed) count the calls of the vtable drop_value and dealloc functions on
each allocation; no engine operation reads them.
-/

namespace Tei

/-- Identity of an allocation: the address of its AllocationInner. -/
abbrev AllocId := Nat

/-- GcColor from the mem types module. The variants White, WhiteWeak and
Black appear in src/src/mem/ptr.rs; the Grey variant is required by
State::trace, State::rescurrect and State::do_sweep in
src/src/mem/context.rs, which store and match it. -/
inductive GcColor where
  | White
  | WhiteWeak
  | Grey
  | Black
deriving DecidableEq

/-- AllocationHeader (src/src/mem/ptr.rs): the next link of the intrusive
allocation list, and the three flag groups packed into the tagged vtable
word (two color bits, the needs_trace bit, the is_live bit). The vtable
pointer itself never changes and carries no information beyond the type,
so it is not part of the model; the per-type data it reaches (needs_trace,
the trace method) is attached elsewhere. -/
structure AllocationHeader where
  next : Option AllocId
  color : GcColor
  needsTrace : Bool
  isLive : Bool
deriving DecidableEq

/-- One allocation record: its header plus two ghost observers.
dropCount counts invocations of the vtable drop_value function
(ManagedVTable.drop_value, reached through Allocation::drop_in_place);
freed records whether Allocation::dealloc has run. -/
structure Alloc where
  header : AllocationHeader
  dropCount : Nat
  freed : Bool
deriving DecidableEq

/-- The store entry of an address never used by the engine. -/
def defaultAlloc : Alloc :=
  { header := { next := none, color := GcColor.White, needsTrace := false, isLive := false }
    dropCount := 0
    freed := false }

/-- State (src/src/mem/context.rs): the head of the allocation list, the
grey worklist and the is_sweeping flag, together with the store of all
allocation records and a fresh-address counter. The Rust Vec push/pop at
the back of the grey worklist is modelled with the list front: push is
cons and pop takes the head, preserving the LIFO order. -/
structure State where
  store : AllocId → Alloc
  head : Option AllocId
  grey : List AllocId
  isSweeping : Bool
  nextId : AllocId

/-- Replace the record of one address, leaving all others untouched. -/
def updateStore (store : AllocId → Alloc) (a : AllocId) (f : Alloc → Alloc) :
    AllocId → Alloc :=
  fun b => if b = a then f (store b) else store b

/-- AllocationHeader::set_color: rewrites the two color bits, preserving
the other tag bits and the vtable pointer. -/
def State.setColor (s : State) (a : AllocId) (c : GcColor) : State :=
  { s with store :=
      updateStore s.store a (fun g => { g with header := { g.header with color := c } }) }

/-- AllocationHeader::set_live: rewrites the is_live bit only. -/
def State.setLive (s : State) (a : AllocId) (v : Bool) : State :=
  { s with store :=
      updateStore s.store a (fun g => { g with header := { g.header with isLive := v } }) }

/-- AllocationHeader::set_next: rewrites the next link only. -/
def State.setNext (s : State) (a : AllocId) (n : Option AllocId) : State :=
  { s with store :=
      updateStore s.store a (fun g => { g with header := { g.header with next := n } }) }

/-- Allocation::drop_in_place, which calls the vtable drop_value function:
observed by incrementing the ghost dropCount. -/
def State.dropInPlace (s : State) (a : AllocId) : State :=
  { s with store :=
      updateStore s.store a (fun g => { g with dropCount := g.dropCount + 1 }) }

/-- Allocation::dealloc: observed by setting the ghost freed flag. -/
def State.dealloc (s : State) (a : AllocId) : State :=
  { s with store := updateStore s.store a (fun g => { g with freed := true }) }

/-- Push onto the grey worklist (Vec::push, modelled at the list front). -/
def State.pushGrey (s : State) (a : AllocId) : State :=
  { s with grey := a :: s.grey }

/-- State::allocate (src/src/mem/context.rs): a fresh header gets
next = current head, is_live = true, needs_trace = T::needs_trace, and the
untagged vtable word leaves the color bits zero, which reads as White;
the new allocation is published as the new list head. The fresh address is
taken from the counter. -/
def State.allocate (s : State) (needsTrace : Bool) : State :=
  let a := s.nextId
  { s with
      store := updateStore s.store a (fun _ =>
        { header := { next := s.head, color := GcColor.White,
                      needsTrace := needsTrace, isLive := true }
          dropCount := 0
          freed := false })
      head := some a
      nextId := a + 1 }

/-- State::can_upgrade (src/src/mem/context.rs): the target is upgradable
iff its is_live flag is set. -/
def State.canUpgrade (s : State) (a : AllocId) : Bool :=
  (s.store a).header.isLive

/-- Modelled from the spec: GcWeak::upgrade is only a TODO stub in
src/src/mem/gc_weak.rs. Per the spec, upgrade(mutation) returns a strong
handle iff the target allocation has its is_live flag set, and a dead
target yields an optional none result rather than an error; the liveness
test is State::can_upgrade, which is present in src/src/mem/context.rs. -/
def State.upgrade (s : State) (a : AllocId) : Option AllocId :=
  if s.canUpgrade a then some a else none

/-- Visitor::trace, i.e. State::trace (src/src/mem/context.rs): a White or
WhiteWeak allocation that needs tracing becomes Grey and enters the grey
worklist; a White or WhiteWeak allocation that does not need tracing
becomes Black directly; otherwise nothing happens. -/
def State.trace (s : State) (a : AllocId) : State :=
  let h := (s.store a).header
  if h.color = GcColor.White ∨ h.color = GcColor.WhiteWeak then
    if h.needsTrace then
      (s.setColor a GcColor.Grey).pushGrey a
    else
      s.setColor a GcColor.Black
  else s

/-- Visitor::trace_weak, i.e. State::trace_weak (src/src/mem/context.rs):
a White allocation becomes WhiteWeak; otherwise nothing happens. -/
def State.traceWeak (s : State) (a : AllocId) : State :=
  if (s.store a).header.color = GcColor.White then
    s.setColor a GcColor.WhiteWeak
  else s

/-- State::rescurrect (src/src/mem/context.rs): a White or WhiteWeak
allocation becomes Grey and enters the grey worklist, with no test of the
needs_trace flag. -/
def State.rescurrect (s : State) (a : AllocId) : State :=
  let h := (s.store a).header
  if h.color = GcColor.White ∨ h.color = GcColor.WhiteWeak then
    (s.setColor a GcColor.Grey).pushGrey a
  else s

/-- One call the user trace method makes on the visitor capability:
visitor.trace for a strong field or visitor.trace_weak for a weak field. -/
inductive VisitOp where
  | strong (a : AllocId)
  | weak (a : AllocId)

/-- Apply one visitor call. -/
def State.applyOp (s : State) : VisitOp → State
  | VisitOp.strong a => s.trace a
  | VisitOp.weak a => s.traceWeak a

/-- Run a user trace method, given as the sequence of visitor calls it
makes. -/
def State.applyOps : State → List VisitOp → State
  | s, [] => s
  | s, op :: ops => State.applyOps (s.applyOp op) ops

/-- One successful iteration of the drain loop of State::do_mark
(src/src/mem/context.rs): the popped allocation a (the worklist was
a :: rest) is processed under a drop guard, the user trace of its payload
runs (vtable trace_value, here the visitor calls tf gives for a), the
allocation is repainted Black and the guard is forgotten. tf assigns to
every allocation the visitor calls of the trace method of its payload
type. -/
def State.markStepOk (tf : AllocId → List VisitOp) (s : State) (a : AllocId)
    (rest : List AllocId) : State :=
  (({ s with grey := rest }).applyOps (tf a)).setColor a GcColor.Black

/-- The drain loop of State::do_mark (src/src/mem/context.rs): while the
grey worklist is nonempty, pop one allocation, run the user trace of its
payload and repaint it Black. The loop is given fuel; none means the fuel
ran out before the worklist emptied. -/
def State.drainGrey (tf : AllocId → List VisitOp) : Nat → State → Option State
  | 0, s =>
    match s.grey with
    | [] => some s
    | _ :: _ => none
  | fuel + 1, s =>
    match s.grey with
    | [] => some s
    | a :: rest => State.drainGrey tf fuel (State.markStepOk tf s a rest)

/-- State::do_mark (src/src/mem/context.rs): run the user trace of the
root on the visitor capability, then drain the grey worklist. -/
def State.doMark (tf : AllocId → List VisitOp) (fuel : Nat) (rootOps : List VisitOp)
    (s : State) : Option State :=
  State.drainGrey tf fuel (s.applyOps rootOps)

/-- One iteration of the drain loop of State::do_mark in which the user
trace aborts after its first k visitor calls: the popped allocation is
processed under a drop guard armed before the user trace runs, and the
guard pushes the allocation back onto the grey worklist when the trace
unwinds instead of returning; the repaint to Black is never reached.
Returns none when the worklist was empty, so no iteration ran. -/
def State.markStepAborted (tf : AllocId → List VisitOp) (k : Nat) (s : State) :
    Option State :=
  match s.grey with
  | [] => none
  | a :: rest =>
    some ((({ s with grey := rest }).applyOps ((tf a).take k)).pushGrey a)

/-- free_alloc (src/src/mem/context.rs): drop the payload in place if the
is_live flag is still set, then deallocate the memory. -/
def freeAlloc (s : State) (a : AllocId) : State :=
  let s1 := if (s.store a).header.isLive then s.dropInPlace a else s
  s1.dealloc a

/-- The walk of State::do_sweep (src/src/mem/context.rs) from the snapshot
cursor, carrying sweep_prev. A White allocation is unlinked (by patching
the next link of sweep_prev, or the engine head when sweep_prev is none)
and freed with free_alloc; a WhiteWeak allocation stays, is repainted
White and, if still live, has its live flag cleared and its payload
dropped in place; a Black allocation stays and is repainted White; the
Grey arm holds only a debug assertion, a no-op in release builds. The walk
is given fuel; none means the fuel ran out before the cursor reached the
end of the list. -/
def sweepGo : Nat → State → Option AllocId → Option AllocId → Option State
  | _, s, none, _ => some s
  | 0, _, some _, _ => none
  | fuel + 1, s, some curr, prev =>
    let h := (s.store curr).header
    let next := h.next
    match h.color with
    | GcColor.White =>
      let s1 :=
        match prev with
        | some p => s.setNext p next
        | none => { s with head := next }
      sweepGo fuel (freeAlloc s1 curr) next prev
    | GcColor.WhiteWeak =>
      let s1 := s.setColor curr GcColor.White
      let s2 :=
        if (s1.store curr).header.isLive then
          (s1.setLive curr false).dropInPlace curr
        else s1
      sweepGo fuel s2 next (some curr)
    | GcColor.Black =>
      sweepGo fuel (s.setColor curr GcColor.White) next (some curr)
    | GcColor.Grey =>
      sweepGo fuel s next prev

/-- State::do_sweep (src/src/mem/context.rs): snapshot the head as the
cursor, start with sweep_prev = none, and walk. -/
def State.doSweep (s : State) (fuel : Nat) : Option State :=
  sweepGo fuel s s.head none

/-- The teardown walk of the Drop impl of State (src/src/mem/context.rs):
the DropAll trampoline takes the head, and while a node remains it reads
its next link and then frees it with free_alloc. -/
def dropAllGo : Nat → State → Option AllocId → Option State
  | _, s, none => some s
  | 0, _, some _ => none
  | fuel + 1, s, some a =>
    let next := (s.store a).header.next
    dropAllGo fuel (freeAlloc s a) next

/-- Engine destruction: DropAll(self.head) walks the whole list, freeing
every node; afterwards the list is gone. -/
def State.teardown (s : State) (fuel : Nat) : Option State :=
  (dropAllGo fuel s s.head).map (fun s2 => { s2 with head := none })

/-- Decides whether the next links of the store thread the addresses l,
starting at cursor cur and ending at none: the shape of the intrusive
allocation list. -/
def chainb (store : AllocId → Alloc) : Option AllocId → List AllocId → Bool
  | none, [] => true
  | some a, b :: l => a == b && chainb store (store a).header.next l
  | none, _ :: _ => false
  | some _, [] => false

/-- The allocation list of the engine, as a proposition: the next links
thread exactly the addresses l from the cursor. -/
def Chain (store : AllocId → Alloc) (cur : Option AllocId) (l : List AllocId) : Prop :=
  chainb store cur l = true

instance chainDecidable (store : AllocId → Alloc) (cur : Option AllocId)
    (l : List AllocId) : Decidable (Chain store cur l) :=
  inferInstanceAs (Decidable (chainb store cur l = true))

/-- The addresses of l that the sweep walk keeps in the list: those whose
stored color is not White. -/
def survivors (store : AllocId → Alloc) (l : List AllocId) : List AllocId :=
  l.filter (fun a => !((store a).header.color == GcColor.White))

/-- The cell through which the sweep walk reaches its cursor: the next
link of sweep_prev, or the engine head when sweep_prev is none. -/
def anchor (s : State) : Option AllocId → Option AllocId
  | none => s.head
  | some p => (s.store p).header.next

/-- Size in bytes of AllocationHeader (src/src/mem/ptr.rs) on a 64-bit
target: a Cell of Option of a non-null pointer plus a Cell of a tagged
vtable pointer, 8 bytes each. -/
def headerSize : Nat := 16

/-- Round n up to the next multiple of k. -/
def roundUpTo (n k : Nat) : Nat := ((n + k - 1) / k) * k

/-- offset_of(AllocationInner of T, value): AllocationInner is repr(C),
the header comes first, and the value field starts at the header size
rounded up to the alignment of T (src/src/mem/ptr.rs). -/
def offsetOfValue (alignT : Nat) : Nat := roundUpTo headerSize alignT

/-- Gc (src/src/mem/gc.rs): a thin pointer to the AllocationInner of the
target allocation, modelled by its address; the payload type enters only
through its alignment, passed to the operations below. -/
structure Gc where
  ptr : Int
deriving DecidableEq

/-- Gc::as_ptr (src/src/mem/gc.rs): the address of the value field of the
AllocationInner, at the value offset of the payload type. -/
def Gc.asPtr (alignT : Nat) (g : Gc) : Int :=
  g.ptr + offsetOfValue alignT

/-- Gc::from_ptr (src/src/mem/gc.rs): step back from the payload address
by the value offset of the payload type to recover the AllocationInner
pointer. -/
def Gc.fromPtr (alignT : Nat) (p : Int) : Gc :=
  { ptr := p - offsetOfValue alignT }

/-- Gc::cast (src/src/mem/gc.rs): NonNull::cast keeps the address of the
AllocationInner and only changes the payload type. -/
def Gc.cast (g : Gc) : Gc :=
  { ptr := g.ptr }

/-- The engine state as State::new makes it: empty list, empty grey
worklist, is_sweeping false. -/
def initState : State :=
  { store := fun _ => defaultAlloc
    head := none
    grey := []
    isSweeping := false
    nextId := 0 }

/-- One freshly allocated traceable object (address 0, White, live). -/
def exTrace : State := initState.allocate true

/-- One freshly allocated leaf object (needs_trace false). -/
def exLeaf : State := initState.allocate false

/-- A list of one Black allocation (reached and already repainted). -/
def exBlack : State := (initState.allocate true).setColor 0 GcColor.Black

/-- A payload type whose trace method makes no visitor calls. -/
def tfEmpty : AllocId → List VisitOp := fun _ => []

/-- exTrace after the root has traced allocation 0: Grey and enqueued. -/
def exMarkedA : State := (exTrace.setColor 0 GcColor.Grey).pushGrey 0

/-- exMarkedA after one successful drain iteration: Black, worklist empty. -/
def exMarkedB : State := ({ exMarkedA with grey := [] }).setColor 0 GcColor.Black

/-- exMarkedA after a drain iteration in which the user trace aborted at
once: the drop guard pushed allocation 0 back onto the worklist. -/
def exAborted : State := ({ exMarkedA with grey := [] }).pushGrey 0

/-- Relates all fields of an allocation record except the next link. -/
def sameButNext (old new : Alloc) : Prop :=
  new.header.color = old.header.color ∧
  new.header.isLive = old.header.isLive ∧
  new.header.needsTrace = old.header.needsTrace ∧
  new.dropCount = old.dropCount ∧
  new.freed = old.freed

/-- What one pass of the sweep walk does to the record of an allocation it
reaches, as a function of the color it finds: White records are dropped
(when still live) and deallocated; WhiteWeak records are repainted White,
their live flag cleared, their payload dropped when still live, their
memory kept; Black records are repainted White and otherwise untouched. -/
def sweptEntry (old new : Alloc) : Prop :=
  (old.header.color = GcColor.White →
    new.freed = true ∧
    new.header.isLive = old.header.isLive ∧
    new.dropCount = old.dropCount + (if old.header.isLive then 1 else 0)) ∧
  (old.header.color = GcColor.WhiteWeak →
    new.header.color = GcColor.White ∧
    new.freed = old.freed ∧
    new.header.isLive = false ∧
    new.header.needsTrace = old.header.needsTrace ∧
    new.dropCount = old.dropCount + (if old.header.isLive then 1 else 0)) ∧
  (old.header.color = GcColor.Black →
    new.header.color = GcColor.White ∧
    new.freed = old.freed ∧
    new.header.isLive = old.header.isLive ∧
    new.header.needsTrace = old.header.needsTrace ∧
    new.dropCount = old.dropCount)

/-- A three-allocation list ready for sweeping: the head (address 2) is a
Black survivor, address 1 is WhiteWeak and live, address 0 is White and
unreachable. -/
def exSweep : State :=
  ((((initState.allocate true).allocate true).allocate false).setColor 2
      GcColor.Black).setColor 1 GcColor.WhiteWeak

/-- The state the sweep walk leaves exSweep in: 2 repainted White, 1
repainted White with its payload dropped and live flag cleared, 0 unlinked
and freed. -/
def exSwept : State :=
  freeAlloc
    (((((exSweep.setColor 2 GcColor.White).setColor 1 GcColor.White).setLive 1
          false).dropInPlace 1).setNext 1 none)
    0

/-- Full specification of the sweep walk over a duplicate-free, Grey-free
stretch l of the allocation list hanging off the anchor of sweep_prev: the
walk terminates, leaves exactly the non-White members of l linked at that
anchor, rewrites each reached record as sweptEntry describes, and touches
no other record (except the next link of sweep_prev itself). -/
def SweepSpec (l : List AllocId) : Prop :=
  ∀ (s : State) (prev : Option AllocId) (fuel : Nat),
    Chain s.store (anchor s prev) l →
    l.Nodup →
    (∀ a ∈ l, (s.store a).header.color ≠ GcColor.Grey) →
    (∀ p, prev = some p → p ∉ l) →
    l.length ≤ fuel →
    ∃ s', sweepGo fuel s (anchor s prev) prev = some s' ∧
      Chain s'.store (anchor s' prev) (survivors s.store l) ∧
      (∀ a ∈ l, sweptEntry (s.store a) (s'.store a)) ∧
      (∀ b, b ∉ l → ((prev ≠ some b → s'.store b = s.store b) ∧
        sameButNext (s.store b) (s'.store b))) ∧
      s'.grey = s.grey ∧ s'.nextId = s.nextId ∧
      (∀ p, prev = some p → s'.head = s.head)

/-- Relates two engine states when an operation only repainted colors and
moved worklist entries: the list head, the address counter and, for every
record, the next link, the live flag, the needs_trace flag, the drop count
and the freed flag are untouched. All of the mark phase stays inside this
frame. -/
def MarkFrame (s s' : State) : Prop :=
  s'.head = s.head ∧ s'.nextId = s.nextId ∧
  ∀ b, (s'.store b).header.next = (s.store b).header.next ∧
    (s'.store b).header.isLive = (s.store b).header.isLive ∧
    (s'.store b).header.needsTrace = (s.store b).header.needsTrace ∧
    (s'.store b).dropCount = (s.store b).dropCount ∧
    (s'.store b).freed = (s.store b).freed

/-- A single allocation record as the drop protocol leaves it: dropped at
most once, and never yet dropped while it is still live and its memory
has not been released. -/
def GoodAlloc (g : Alloc) : Prop :=
  g.dropCount ≤ 1 ∧
  (g.freed = false → g.header.isLive = true → g.dropCount = 0)

/-- The inductive invariant of the engine: every record is good, and the
allocation list is a duplicate-free chain of not-yet-deallocated
allocations below the address counter. -/
def EngineInv (s : State) : Prop :=
  (∀ a, GoodAlloc (s.store a)) ∧
  ∃ l, Chain s.store s.head l ∧ l.Nodup ∧
    ∀ a ∈ l, (s.store a).freed = false ∧ a < s.nextId

/-- The states a host can drive the engine into from State::new through
the operations of src/src/mem/context.rs: allocation, a completed mark, a
mark iteration aborted by a user panic, finalization resurrects, a sweep
(whose Grey arm asserts that no Grey allocation is in the list), and
teardown. The fuel bounds only force the walks to be given enough fuel to
reach the end of the list, which the loops of the source always do. -/
inductive Reached : State → Prop where
  | init : Reached initState
  | alloc {s : State} (needsTrace : Bool) :
      Reached s → Reached (s.allocate needsTrace)
  | mark {s s' : State} (tf : AllocId → List VisitOp) (fuel : Nat)
      (rootOps : List VisitOp) :
      Reached s → State.doMark tf fuel rootOps s = some s' → Reached s'
  | markAbort {s s' : State} (tf : AllocId → List VisitOp) (k : Nat) :
      Reached s → State.markStepAborted tf k s = some s' → Reached s'
  | finalize {s : State} (ts : List AllocId) :
      Reached s → Reached (ts.foldl State.rescurrect s)
  | sweep {s s' : State} (fuel : Nat) :
      Reached s →
      (∀ a, a < s.nextId → (s.store a).header.color ≠ GcColor.Grey) →
      (∀ l, Chain s.store s.head l → l.length ≤ fuel) →
      s.doSweep fuel = some s' → Reached s'
  | teardown {s s' : State} (fuel : Nat) :
      Reached s →
      (∀ l, Chain s.store s.head l → l.length ≤ fuel) →
      s.teardown fuel = some s' → Reached s'

/-- The single-allocation example after a completed collection cycle:
marked Black, swept back to White. -/
def exCollected : State := exMarkedB.setColor 0 GcColor.White

/-- exCollected after engine teardown: its one allocation dropped and
deallocated, the list gone. -/
def exTorn : State := { freeAlloc exCollected 0 with head := none }

/-! Theorems. First, unfolding lemmas for the primitive header writes and
the branches of the visitor operations. -/

@[simp] theorem setColor_store (s : State) (a : AllocId) (c : GcColor) (b : AllocId) :
    (s.setColor a c).store b =
      if b = a then { s.store b with header := { (s.store b).header with color := c } }
      else s.store b := rfl

@[simp] theorem setColor_grey (s : State) (a : AllocId) (c : GcColor) :
    (s.setColor a c).grey = s.grey := rfl

@[simp] theorem setColor_head (s : State) (a : AllocId) (c : GcColor) :
    (s.setColor a c).head = s.head := rfl

@[simp] theorem setColor_nextId (s : State) (a : AllocId) (c : GcColor) :
    (s.setColor a c).nextId = s.nextId := rfl

@[simp] theorem setLive_store (s : State) (a : AllocId) (v : Bool) (b : AllocId) :
    (s.setLive a v).store b =
      if b = a then { s.store b with header := { (s.store b).header with isLive := v } }
      else s.store b := rfl

@[simp] theorem setLive_grey (s : State) (a : AllocId) (v : Bool) :
    (s.setLive a v).grey = s.grey := rfl

@[simp] theorem setLive_head (s : State) (a : AllocId) (v : Bool) :
    (s.setLive a v).head = s.head := rfl

@[simp] theorem setLive_nextId (s : State) (a : AllocId) (v : Bool) :
    (s.setLive a v).nextId = s.nextId := rfl

@[simp] theorem setNext_store (s : State) (a : AllocId) (n : Option AllocId) (b : AllocId) :
    (s.setNext a n).store b =
      if b = a then { s.store b with header := { (s.store b).header with next := n } }
      else s.store b := rfl

@[simp] theorem setNext_grey (s : State) (a : AllocId) (n : Option AllocId) :
    (s.setNext a n).grey = s.grey := rfl

@[simp] theorem setNext_head (s : State) (a : AllocId) (n : Option AllocId) :
    (s.setNext a n).head = s.head := rfl

@[simp] theorem setNext_nextId (s : State) (a : AllocId) (n : Option AllocId) :
    (s.setNext a n).nextId = s.nextId := rfl

@[simp] theorem dropInPlace_store (s : State) (a : AllocId) (b : AllocId) :
    (s.dropInPlace a).store b =
      if b = a then { s.store b with dropCount := (s.store b).dropCount + 1 }
      else s.store b := rfl

@[simp] theorem dropInPlace_grey (s : State) (a : AllocId) :
    (s.dropInPlace a).grey = s.grey := rfl

@[simp] theorem dropInPlace_head (s : State) (a : AllocId) :
    (s.dropInPlace a).head = s.head := rfl

@[simp] theorem dropInPlace_nextId (s : State) (a : AllocId) :
    (s.dropInPlace a).nextId = s.nextId := rfl

@[simp] theorem dealloc_store (s : State) (a : AllocId) (b : AllocId) :
    (s.dealloc a).store b =
      if b = a then { s.store b with freed := true } else s.store b := rfl

@[simp] theorem dealloc_grey (s : State) (a : AllocId) :
    (s.dealloc a).grey = s.grey := rfl

@[simp] theorem dealloc_head (s : State) (a : AllocId) :
    (s.dealloc a).head = s.head := rfl

@[simp] theorem dealloc_nextId (s : State) (a : AllocId) :
    (s.dealloc a).nextId = s.nextId := rfl

@[simp] theorem pushGrey_store (s : State) (a : AllocId) :
    (s.pushGrey a).store = s.store := rfl

@[simp] theorem pushGrey_grey (s : State) (a : AllocId) :
    (s.pushGrey a).grey = a :: s.grey := rfl

@[simp] theorem pushGrey_head (s : State) (a : AllocId) :
    (s.pushGrey a).head = s.head := rfl

@[simp] theorem pushGrey_nextId (s : State) (a : AllocId) :
    (s.pushGrey a).nextId = s.nextId := rfl

@[simp] theorem applyOps_nil (s : State) : s.applyOps [] = s := rfl

@[simp] theorem applyOps_cons (s : State) (op : VisitOp) (ops : List VisitOp) :
    s.applyOps (op :: ops) = (s.applyOp op).applyOps ops := rfl

theorem trace_eq_push (s : State) (a : AllocId)
    (hw : (s.store a).header.color = GcColor.White ∨
      (s.store a).header.color = GcColor.WhiteWeak)
    (hnt : (s.store a).header.needsTrace = true) :
    s.trace a = (s.setColor a GcColor.Grey).pushGrey a := by
  unfold State.trace
  rw [if_pos hw, if_pos hnt]

theorem trace_eq_black (s : State) (a : AllocId)
    (hw : (s.store a).header.color = GcColor.White ∨
      (s.store a).header.color = GcColor.WhiteWeak)
    (hnt : (s.store a).header.needsTrace = false) :
    s.trace a = s.setColor a GcColor.Black := by
  unfold State.trace
  rw [if_pos hw, if_neg (by simp [hnt])]

theorem trace_eq_skip (s : State) (a : AllocId)
    (hw : ¬((s.store a).header.color = GcColor.White ∨
      (s.store a).header.color = GcColor.WhiteWeak)) :
    s.trace a = s := by
  unfold State.trace
  rw [if_neg hw]

theorem traceWeak_eq_set (s : State) (a : AllocId)
    (hw : (s.store a).header.color = GcColor.White) :
    s.traceWeak a = s.setColor a GcColor.WhiteWeak := by
  unfold State.traceWeak
  rw [if_pos hw]

theorem traceWeak_eq_skip (s : State) (a : AllocId)
    (hw : ¬(s.store a).header.color = GcColor.White) :
    s.traceWeak a = s := by
  unfold State.traceWeak
  rw [if_neg hw]

theorem rescurrect_eq_push (s : State) (a : AllocId)
    (hw : (s.store a).header.color = GcColor.White ∨
      (s.store a).header.color = GcColor.WhiteWeak) :
    s.rescurrect a = (s.setColor a GcColor.Grey).pushGrey a := by
  unfold State.rescurrect
  rw [if_pos hw]

theorem rescurrect_eq_skip (s : State) (a : AllocId)
    (hw : ¬((s.store a).header.color = GcColor.White ∨
      (s.store a).header.color = GcColor.WhiteWeak)) :
    s.rescurrect a = s := by
  unfold State.rescurrect
  rw [if_neg hw]

/-- A visitor call keeps every Grey allocation queued, up to one escape id
x (the allocation a drain iteration is currently processing). -/
theorem applyOp_greyQueued (s : State) (op : VisitOp) (x : Option AllocId)
    (h : ∀ b, (s.store b).header.color = GcColor.Grey → b ∈ s.grey ∨ some b = x) :
    ∀ b, ((s.applyOp op).store b).header.color = GcColor.Grey →
      b ∈ (s.applyOp op).grey ∨ some b = x := by
  cases op with
  | strong a =>
    intro b hb
    simp only [State.applyOp] at hb ⊢
    by_cases hw : (s.store a).header.color = GcColor.White ∨
        (s.store a).header.color = GcColor.WhiteWeak
    · cases hnt : (s.store a).header.needsTrace with
      | true =>
        rw [trace_eq_push s a hw hnt] at hb ⊢
        by_cases hba : b = a
        · subst hba
          simp
        · simp only [pushGrey_store, setColor_store, if_neg hba] at hb
          rcases h b hb with hmem | hx
          · left
            simp [hmem]
          · right
            exact hx
      | false =>
        rw [trace_eq_black s a hw hnt] at hb ⊢
        by_cases hba : b = a
        · subst hba
          simp at hb
        · simp only [setColor_store, if_neg hba] at hb
          simpa using h b hb
    · rw [trace_eq_skip s a hw] at hb ⊢
      exact h b hb
  | weak a =>
    intro b hb
    simp only [State.applyOp] at hb ⊢
    by_cases hw : (s.store a).header.color = GcColor.White
    · rw [traceWeak_eq_set s a hw] at hb ⊢
      by_cases hba : b = a
      · subst hba
        simp at hb
      · simp only [setColor_store, if_neg hba] at hb
        simpa using h b hb
    · rw [traceWeak_eq_skip s a hw] at hb ⊢
      exact h b hb

/-- A whole user trace keeps every Grey allocation queued, up to one
escape id. -/
theorem applyOps_greyQueued (ops : List VisitOp) : ∀ (s : State) (x : Option AllocId),
    (∀ b, (s.store b).header.color = GcColor.Grey → b ∈ s.grey ∨ some b = x) →
    ∀ b, ((s.applyOps ops).store b).header.color = GcColor.Grey →
      b ∈ (s.applyOps ops).grey ∨ some b = x := by
  induction ops with
  | nil =>
    intro s x h b hb
    simpa using h b (by simpa using hb)
  | cons op ops ih =>
    intro s x h b hb
    rw [applyOps_cons] at hb ⊢
    exact ih (s.applyOp op) x (applyOp_greyQueued s op x h) b hb

/-- A completed drain leaves the grey worklist empty. -/
theorem drainGrey_grey_nil (tf : AllocId → List VisitOp) :
    ∀ (fuel : Nat) (s s' : State), State.drainGrey tf fuel s = some s' → s'.grey = [] := by
  intro fuel
  induction fuel with
  | zero =>
    intro s s' h
    cases hg : s.grey with
    | nil =>
      simp only [State.drainGrey, hg] at h
      cases h
      exact hg
    | cons a rest =>
      simp [State.drainGrey, hg] at h
  | succ n ih =>
    intro s s' h
    cases hg : s.grey with
    | nil =>
      simp only [State.drainGrey, hg] at h
      cases h
      exact hg
    | cons a rest =>
      simp only [State.drainGrey, hg] at h
      exact ih _ _ h

/-- A completed drain keeps every Grey allocation queued. -/
theorem drainGrey_greyQueued (tf : AllocId → List VisitOp) :
    ∀ (fuel : Nat) (s s' : State),
    (∀ b, (s.store b).header.color = GcColor.Grey → b ∈ s.grey) →
    State.drainGrey tf fuel s = some s' →
    ∀ b, (s'.store b).header.color = GcColor.Grey → b ∈ s'.grey := by
  intro fuel
  induction fuel with
  | zero =>
    intro s s' hq h
    cases hg : s.grey with
    | nil =>
      simp only [State.drainGrey, hg] at h
      cases h
      exact hq
    | cons a rest =>
      simp [State.drainGrey, hg] at h
  | succ n ih =>
    intro s s' hq h
    cases hg : s.grey with
    | nil =>
      simp only [State.drainGrey, hg] at h
      cases h
      exact hq
    | cons a rest =>
      simp only [State.drainGrey, hg] at h
      refine ih _ _ ?_ h
      intro b hb
      simp only [State.markStepOk] at hb ⊢
      by_cases hba : b = a
      · subst hba
        simp at hb
      · simp only [setColor_store, if_neg hba] at hb
        have h1 : ∀ c, (({ s with grey := rest }).store c).header.color = GcColor.Grey →
            c ∈ ({ s with grey := rest } : State).grey ∨ some c = some a := by
          intro c hc
          have hcm := hq c hc
          rw [hg] at hcm
          rcases List.mem_cons.mp hcm with h3 | h3
          · right
            exact congrArg some h3
          · left
            exact h3
        rcases applyOps_greyQueued (tf a) _ (some a) h1 b hb with hmem | hx
        · simpa using hmem
        · exact absurd (Option.some_inj.mp hx) hba

/-- C2: for every allocation handle passed to the visitor trace operation:
if its stored color is White or WhiteWeak and its needs_trace flag is set,
its color becomes Grey and the handle is pushed onto the grey worklist; if
its color is White or WhiteWeak and needs_trace is clear, its color becomes
Black and it is not enqueued; if its color is Black, nothing changes. -/
theorem claim_c2 (s : State) (a : AllocId) :
    ((s.store a).header.color = GcColor.White ∨
       (s.store a).header.color = GcColor.WhiteWeak →
      ((s.store a).header.needsTrace = true →
        ((s.trace a).store a).header.color = GcColor.Grey ∧
          (s.trace a).grey = a :: s.grey) ∧
      ((s.store a).header.needsTrace = false →
        ((s.trace a).store a).header.color = GcColor.Black ∧
          (s.trace a).grey = s.grey)) ∧
    ((s.store a).header.color = GcColor.Black → s.trace a = s) := by
  refine ⟨fun hw => ⟨fun ht => ?_, fun ht => ?_⟩, fun hb => ?_⟩
  · simp [State.trace, hw, ht, State.pushGrey, State.setColor, updateStore,
      if_pos (Or.elim hw Or.inl Or.inr)]
  · simp [State.trace, hw, ht, State.setColor, updateStore,
      if_pos (Or.elim hw Or.inl Or.inr)]
  · have : ¬ ((s.store a).header.color = GcColor.White ∨
        (s.store a).header.color = GcColor.WhiteWeak) := by
      rw [hb]; intro h; rcases h with h | h <;> exact GcColor.noConfusion h
    simp [State.trace, this]

/-- C2 witness: concrete runs of the three branches. -/
theorem claim_c2_witness :
    (((exTrace.trace 0).store 0).header.color = GcColor.Grey ∧
      (exTrace.trace 0).grey = [0]) ∧
    (((exLeaf.trace 0).store 0).header.color = GcColor.Black ∧
      (exLeaf.trace 0).grey = []) ∧
    exBlack.trace 0 = exBlack := by
  refine ⟨?_, ?_, ?_⟩
  · exact (claim_c2 exTrace 0).1 (Or.inl (by decide)) |>.1 (by decide)
  · exact (claim_c2 exLeaf 0).1 (Or.inl (by decide)) |>.2 (by decide)
  · exact (claim_c2 exBlack 0).2 (by decide)

/-- C4 counterexample: State::rescurrect pushes a live White allocation
whose needs_trace flag is clear onto the grey worklist, so an allocation
of a type with needs_trace() == false does appear on the grey worklist. -/
theorem claim_c4_counterexample :
    ((exLeaf.rescurrect 0).store 0).header.needsTrace = false ∧
      0 ∈ (exLeaf.rescurrect 0).grey := by
  decide

/-- C4 amended: the visitor trace operation alone never enqueues an
allocation with needs_trace == false: a call of trace either leaves the
grey worklist unchanged, or pushes exactly its argument, whose needs_trace
flag is set; the finalization rescurrect enqueues any White or WhiteWeak
allocation regardless of needs_trace. -/
theorem claim_c4_amended (s : State) (a : AllocId) :
    (s.trace a).grey = s.grey ∨
      ((s.store a).header.needsTrace = true ∧ (s.trace a).grey = a :: s.grey) := by
  by_cases hw : (s.store a).header.color = GcColor.White ∨
      (s.store a).header.color = GcColor.WhiteWeak
  · cases hnt : (s.store a).header.needsTrace with
    | true =>
      right
      refine ⟨rfl, ?_⟩
      simp [State.trace, hw, hnt, State.pushGrey, State.setColor]
    | false =>
      left
      simp [State.trace, hw, hnt, State.setColor]
  · left
    simp [State.trace, hw]

/-- C7: upgrading a weak handle succeeds exactly when the target is_live
flag is set, and a dead target is reported with an optional none result
rather than an error. -/
theorem claim_c7 (s : State) (a : AllocId) :
    ((∃ g, s.upgrade a = some g) ↔ (s.store a).header.isLive = true) ∧
      ((s.store a).header.isLive = false → s.upgrade a = none) := by
  constructor
  · constructor
    · rintro ⟨g, hg⟩
      by_contra hl
      have hfalse : (s.store a).header.isLive = false := by
        cases h : (s.store a).header.isLive
        · rfl
        · exact absurd h hl
      simp [State.upgrade, State.canUpgrade, hfalse] at hg
    · intro hl
      exact ⟨a, by simp [State.upgrade, State.canUpgrade, hl]⟩
  · intro hl
    simp [State.upgrade, State.canUpgrade, hl]

/-- C5 counterexample: a single live White traceable allocation that the
root does not reach. It was allocated before the mark phase ran (it is
already in the list of the pre-mark state, and State::do_mark performs no
allocation), the mark completes, yet after the mark it is still in the
list with color White - neither WhiteWeak nor Black. -/
theorem claim_c5_counterexample :
    State.doMark tfEmpty 1 [] exTrace = some exTrace ∧
      Chain exTrace.store exTrace.head [0] ∧
      (exTrace.store 0).header.color ≠ GcColor.WhiteWeak ∧
      (exTrace.store 0).header.color ≠ GcColor.Black := by
  refine ⟨rfl, by decide, by decide, by decide⟩

/-- C5 amended: when the mark phase completes (the drain of the grey
worklist finishes), starting from a state in which every Grey allocation
sits on the grey worklist (between cycles there is no Grey at all), no
allocation is left Grey: every allocation has color White, WhiteWeak or
Black. Unreached pre-existing allocations keep color White, so membership
of {WhiteWeak, Black} cannot be concluded. -/
theorem claim_c5_amended (tf : AllocId → List VisitOp) (fuel : Nat)
    (rootOps : List VisitOp) (s s' : State) (a : AllocId)
    (hq : ∀ b, (s.store b).header.color = GcColor.Grey → b ∈ s.grey)
    (hm : State.doMark tf fuel rootOps s = some s') :
    (s'.store a).header.color ≠ GcColor.Grey := by
  intro hgrey
  have h0 : ∀ b, (s.store b).header.color = GcColor.Grey → b ∈ s.grey ∨
      some b = none := fun b hb => Or.inl (hq b hb)
  have h1 := applyOps_greyQueued rootOps s none h0
  have h2 : ∀ b, ((s.applyOps rootOps).store b).header.color = GcColor.Grey →
      b ∈ (s.applyOps rootOps).grey := by
    intro b hb
    rcases h1 b hb with hmem | hx
    · exact hmem
    · exact absurd hx (by simp)
  have h3 := drainGrey_greyQueued tf fuel _ s' h2 hm
  have h4 := drainGrey_grey_nil tf fuel _ s' hm
  have h5 := h3 a hgrey
  rw [h4] at h5
  exact absurd h5 (List.not_mem_nil a)

/-- C5 witness: the root traces the one allocation; after the completed
mark it is Black, in particular not Grey. -/
theorem claim_c5_amended_witness :
    State.doMark tfEmpty 2 [VisitOp.strong 0] exTrace = some exMarkedB ∧
      (exMarkedB.store 0).header.color ≠ GcColor.Grey := by
  constructor
  · rfl
  · refine claim_c5_amended tfEmpty 2 [VisitOp.strong 0] exTrace exMarkedB 0 ?_ rfl
    intro b hb
    exfalso
    by_cases hb0 : b = 0
    · subst hb0
      simp [exTrace, initState, State.allocate, updateStore] at hb
    · simp [exTrace, initState, State.allocate, updateStore, hb0, defaultAlloc] at hb

/-- C6: when the user trace aborts while the drain loop of do_mark is
processing an allocation popped from the grey worklist, the drop guard
armed before the user trace ran pushes that allocation back, so after the
abort it is on the grey worklist again (and still Grey, not stranded as
Grey-but-unqueued); on a successful return the iteration repaints it Black
and it is no longer queued. -/
theorem claim_c6 (tf : AllocId → List VisitOp) (k : Nat) (s s' : State)
    (a : AllocId) (rest : List AllocId)
    (hg : s.grey = a :: rest)
    (hgrey : (s.store a).header.color = GcColor.Grey)
    (hnr : a ∉ rest)
    (habort : State.markStepAborted tf k s = some s') :
    (a ∈ s'.grey ∧ (s'.store a).header.color = GcColor.Grey) ∧
      ((State.markStepOk tf s a rest).store a).header.color = GcColor.Black ∧
      a ∉ (State.markStepOk tf s a rest).grey := by
  have hfix : ∀ (ops : List VisitOp) (t : State),
      (t.store a).header.color = GcColor.Grey → a ∉ t.grey →
      ((t.applyOps ops).store a).header.color = GcColor.Grey ∧
        a ∉ (t.applyOps ops).grey := by
    intro ops
    induction ops with
    | nil =>
      intro t hc hm
      exact ⟨hc, hm⟩
    | cons op ops ih =>
      intro t hc hm
      rw [applyOps_cons]
      refine ih (t.applyOp op) ?_ ?_
      · cases op with
        | strong c =>
          simp only [State.applyOp]
          by_cases hca : c = a
          · subst hca
            rw [trace_eq_skip t c (by rw [hc]; rintro (h | h) <;> cases h)]
            exact hc
          · by_cases hw : (t.store c).header.color = GcColor.White ∨
                (t.store c).header.color = GcColor.WhiteWeak
            · cases hnt : (t.store c).header.needsTrace with
              | true =>
                rw [trace_eq_push t c hw hnt]
                simpa [Ne.symm hca] using hc
              | false =>
                rw [trace_eq_black t c hw hnt]
                simpa [Ne.symm hca] using hc
            · rw [trace_eq_skip t c hw]
              exact hc
        | weak c =>
          simp only [State.applyOp]
          by_cases hw : (t.store c).header.color = GcColor.White
          · rw [traceWeak_eq_set t c hw]
            by_cases hca : c = a
            · subst hca
              rw [hw] at hc
              cases hc
            · simpa [Ne.symm hca] using hc
          · rw [traceWeak_eq_skip t c hw]
            exact hc
      · cases op with
        | strong c =>
          simp only [State.applyOp]
          by_cases hca : c = a
          · subst hca
            rw [trace_eq_skip t c (by rw [hc]; rintro (h | h) <;> cases h)]
            exact hm
          · by_cases hw : (t.store c).header.color = GcColor.White ∨
                (t.store c).header.color = GcColor.WhiteWeak
            · cases hnt : (t.store c).header.needsTrace with
              | true =>
                rw [trace_eq_push t c hw hnt]
                simp only [pushGrey_grey, setColor_grey, List.mem_cons]
                rintro (h | h)
                · exact hca (h.symm)
                · exact hm h
              | false =>
                rw [trace_eq_black t c hw hnt]
                simpa using hm
            · rw [trace_eq_skip t c hw]
              exact hm
        | weak c =>
          simp only [State.applyOp]
          by_cases hw : (t.store c).header.color = GcColor.White
          · rw [traceWeak_eq_set t c hw]
            simpa using hm
          · rw [traceWeak_eq_skip t c hw]
            exact hm
  have hstart : ((({ s with grey := rest }) : State).store a).header.color =
      GcColor.Grey := hgrey
  have hstartm : a ∉ (({ s with grey := rest }) : State).grey := hnr
  constructor
  · simp only [State.markStepAborted, hg] at habort
    cases habort
    constructor
    · simp
    · have := (hfix ((tf a).take k) _ hstart hstartm).1
      simpa using this
  · have hok := hfix (tf a) _ hstart hstartm
    constructor
    · simp [State.markStepOk]
    · simp only [State.markStepOk, setColor_grey]
      exact hok.2

/-- C6 witness: with one Grey allocation queued, the aborted iteration
leaves it queued and Grey; the successful iteration leaves it Black and
unqueued. -/
theorem claim_c6_witness :
    (0 ∈ exAborted.grey ∧ (exAborted.store 0).header.color = GcColor.Grey) ∧
      ((State.markStepOk tfEmpty exMarkedA 0 []).store 0).header.color = GcColor.Black ∧
      0 ∉ (State.markStepOk tfEmpty exMarkedA 0 []).grey :=
  claim_c6 tfEmpty 0 exMarkedA exAborted 0 [] (by decide) (by decide)
    (by decide) rfl

/-- C4 witness: on the concrete leaf allocation, trace leaves the grey
worklist unchanged. -/
theorem claim_c4_amended_witness :
    (exLeaf.trace 0).grey = exLeaf.grey ∨
      ((exLeaf.store 0).header.needsTrace = true ∧
        (exLeaf.trace 0).grey = 0 :: exLeaf.grey) :=
  claim_c4_amended exLeaf 0

/-- C7 witness: the live example allocation upgrades. -/
theorem claim_c7_witness :
    ((∃ g, exTrace.upgrade 0 = some g) ↔ (exTrace.store 0).header.isLive = true) ∧
      ((exTrace.store 0).header.isLive = false → exTrace.upgrade 0 = none) :=
  claim_c7 exTrace 0

/-- C8: for every strong handle, reconstructing a handle from its raw
payload pointer is the identity: from_ptr(as_ptr(h)) has the same internal
AllocationInner pointer as h. Both operations use the value offset of the
same payload type, so the offsets cancel. -/
theorem claim_c8 (alignT : Nat) (g : Gc) :
    Gc.fromPtr alignT (Gc.asPtr alignT g) = g := by
  cases g with
  | mk p =>
    simp [Gc.fromPtr, Gc.asPtr]

/-- C8 witness: the round trip at a concrete address and alignment. -/
theorem claim_c8_witness :
    Gc.fromPtr 8 (Gc.asPtr 8 { ptr := 16 }) = ({ ptr := 16 } : Gc) :=
  claim_c8 8 { ptr := 16 }

/-- C9 counterexample: for a payload type of alignment 8 and a target type
of alignment 32, cast keeps the AllocationInner address but as_ptr then
uses the value offset of the target type (32 instead of 16), so the
payload address is not preserved. -/
theorem claim_c9_counterexample :
    Gc.asPtr 32 (Gc.cast { ptr := 0 }) ≠ Gc.asPtr 8 ({ ptr := 0 } : Gc) := by
  decide

/-- C9 amended: cast preserves the AllocationInner address, and it
preserves the payload address exactly when the value offset of the target
type equals the value offset of the source type - in particular whenever
both alignments are at most 16, the header size. -/
theorem claim_c9_amended (alignT alignU : Nat) (g : Gc)
    (h : offsetOfValue alignU = offsetOfValue alignT) :
    Gc.asPtr alignU (Gc.cast g) = Gc.asPtr alignT g := by
  simp [Gc.asPtr, Gc.cast, h]

/-- C9 witness: alignments 4 and 8 share the value offset 16, and the
payload address survives the cast there. -/
theorem claim_c9_witness :
    offsetOfValue 4 = offsetOfValue 8 ∧
      Gc.asPtr 4 (Gc.cast { ptr := 0 }) = Gc.asPtr 8 ({ ptr := 0 } : Gc) :=
  ⟨by decide, claim_c9_amended 8 4 { ptr := 0 } (by decide)⟩

/-! Lemmas about the allocation list shape and the sweep walk. -/

theorem chain_eq_none {store : AllocId → Alloc} {cur : Option AllocId}
    (h : Chain store cur []) : cur = none := by
  cases cur with
  | none => rfl
  | some a => simp [Chain, chainb] at h

theorem chain_cursor {store : AllocId → Alloc} {cur : Option AllocId}
    {a : AllocId} {l : List AllocId} (h : Chain store cur (a :: l)) :
    cur = some a := by
  cases cur with
  | none => simp [Chain, chainb] at h
  | some b =>
    simp only [Chain, chainb, Bool.and_eq_true, beq_iff_eq] at h
    exact congrArg some h.1

theorem chain_tail {store : AllocId → Alloc} {cur : Option AllocId}
    {a : AllocId} {l : List AllocId} (h : Chain store cur (a :: l)) :
    Chain store (store a).header.next l := by
  rcases cur with _ | b
  · simp [Chain, chainb] at h
  · simp only [Chain, chainb, Bool.and_eq_true, beq_iff_eq] at h
    rcases h with ⟨hb, hc⟩
    subst hb
    exact hc

theorem chain_cons_intro {store : AllocId → Alloc} {cur : Option AllocId}
    {a : AllocId} {l : List AllocId} (h1 : cur = some a)
    (h2 : Chain store (store a).header.next l) : Chain store cur (a :: l) := by
  subst h1
  simp only [Chain, chainb, Bool.and_eq_true, beq_iff_eq]
  exact ⟨trivial, h2⟩

/-- The list shape only depends on the records of its members. -/
theorem chainb_congr (l : List AllocId) :
    ∀ (store₁ store₂ : AllocId → Alloc) (cur : Option AllocId),
    (∀ x ∈ l, store₂ x = store₁ x) →
    chainb store₂ cur l = chainb store₁ cur l := by
  induction l with
  | nil =>
    intro s1 s2 cur _
    cases cur <;> rfl
  | cons a l ih =>
    intro s1 s2 cur h
    cases cur with
    | none => rfl
    | some b =>
      simp only [chainb]
      by_cases hba : b = a
      · have hsb : s2 b = s1 b := by
          rw [hba]
          exact h a (List.mem_cons_self a l)
        rw [hsb, ih s1 s2 ((s1 b).header.next) (fun x hx => h x (List.mem_cons_of_mem a hx))]
      · have : (b == a) = false := by simp [hba]
        rw [this]
        simp

/-- The survivor list only depends on the colors of its members. -/
theorem survivors_congr (l : List AllocId) (store₁ store₂ : AllocId → Alloc)
    (h : ∀ x ∈ l, store₂ x = store₁ x) :
    survivors store₂ l = survivors store₁ l := by
  unfold survivors
  induction l with
  | nil => rfl
  | cons a l ih =>
    simp only [List.filter_cons]
    rw [h a (List.mem_cons_self a l), ih (fun x hx => h x (List.mem_cons_of_mem a hx))]

theorem sweepGo_none (fuel : Nat) (s : State) (prev : Option AllocId) :
    sweepGo fuel s none prev = some s := by
  cases fuel <;> rfl

theorem sweepGo_zero (s : State) (curr : AllocId) (prev : Option AllocId) :
    sweepGo 0 s (some curr) prev = none := rfl

theorem sweepGo_white (fuel : Nat) (s : State) (curr : AllocId) (prev : Option AllocId)
    (hc : (s.store curr).header.color = GcColor.White) :
    sweepGo (fuel + 1) s (some curr) prev =
      sweepGo fuel
        (freeAlloc
          (match prev with
           | some p => s.setNext p ((s.store curr).header.next)
           | none => { s with head := (s.store curr).header.next })
          curr)
        ((s.store curr).header.next) prev := by
  simp only [sweepGo]
  simp only [hc]

theorem sweepGo_whiteWeak (fuel : Nat) (s : State) (curr : AllocId) (prev : Option AllocId)
    (hc : (s.store curr).header.color = GcColor.WhiteWeak) :
    sweepGo (fuel + 1) s (some curr) prev =
      sweepGo fuel
        (if ((s.setColor curr GcColor.White).store curr).header.isLive then
          ((s.setColor curr GcColor.White).setLive curr false).dropInPlace curr
         else s.setColor curr GcColor.White)
        ((s.store curr).header.next) (some curr) := by
  simp only [sweepGo]
  simp only [hc]

theorem sweepGo_black (fuel : Nat) (s : State) (curr : AllocId) (prev : Option AllocId)
    (hc : (s.store curr).header.color = GcColor.Black) :
    sweepGo (fuel + 1) s (some curr) prev =
      sweepGo fuel (s.setColor curr GcColor.White) ((s.store curr).header.next)
        (some curr) := by
  simp only [sweepGo]
  simp only [hc]

@[simp] theorem freeAlloc_store (s : State) (a : AllocId) (b : AllocId) :
    (freeAlloc s a).store b =
      if b = a then
        { s.store b with
            dropCount := (s.store b).dropCount +
              (if (s.store a).header.isLive then 1 else 0)
            freed := true }
      else s.store b := by
  unfold freeAlloc
  by_cases hl : (s.store a).header.isLive <;>
    by_cases hba : b = a <;>
    simp [hl, hba]

@[simp] theorem freeAlloc_grey (s : State) (a : AllocId) :
    (freeAlloc s a).grey = s.grey := by
  unfold freeAlloc
  by_cases hl : (s.store a).header.isLive <;> simp [hl]

@[simp] theorem freeAlloc_head (s : State) (a : AllocId) :
    (freeAlloc s a).head = s.head := by
  unfold freeAlloc
  by_cases hl : (s.store a).header.isLive <;> simp [hl]

@[simp] theorem freeAlloc_nextId (s : State) (a : AllocId) :
    (freeAlloc s a).nextId = s.nextId := by
  unfold freeAlloc
  by_cases hl : (s.store a).header.isLive <;> simp [hl]

theorem sameButNext_trans {x y z : Alloc} (h1 : sameButNext x y)
    (h2 : sameButNext y z) : sameButNext x z := by
  obtain ⟨a1, a2, a3, a4, a5⟩ := h1
  obtain ⟨b1, b2, b3, b4, b5⟩ := h2
  exact ⟨b1.trans a1, b2.trans a2, b3.trans a3, b4.trans a4, b5.trans a5⟩

/-- The kept-node step of the sweep walk: when the walk keeps the current
allocation a (the WhiteWeak and Black arms), only the record of a changed,
sweep_prev advances to a, and the rest of the walk is described by the
specification of the tail. -/
theorem sweepGo_keep (a : AllocId) (rest : List AllocId) (ihrest : SweepSpec rest)
    (s s2 : State) (prev : Option AllocId) (fuel : Nat)
    (hch : Chain s.store (anchor s prev) (a :: rest))
    (hnd : (a :: rest).Nodup)
    (hng : ∀ x ∈ a :: rest, (s.store x).header.color ≠ GcColor.Grey)
    (hp : ∀ p, prev = some p → p ∉ a :: rest)
    (hfuel : rest.length ≤ fuel)
    (hs2other : ∀ x, x ≠ a → s2.store x = s.store x)
    (hs2grey : s2.grey = s.grey) (hs2nid : s2.nextId = s.nextId)
    (hs2head : s2.head = s.head)
    (hs2next : (s2.store a).header.next = (s.store a).header.next)
    (hkeep : (s.store a).header.color ≠ GcColor.White)
    (hstep : sweepGo (fuel + 1) s (anchor s prev) prev =
      sweepGo fuel s2 ((s.store a).header.next) (some a)) :
    ∃ s', sweepGo (fuel + 1) s (anchor s prev) prev = some s' ∧
      Chain s'.store (anchor s' prev) (survivors s.store (a :: rest)) ∧
      sameButNext (s2.store a) (s'.store a) ∧
      (∀ x ∈ rest, sweptEntry (s.store x) (s'.store x)) ∧
      (∀ b, b ∉ a :: rest →
        ((prev ≠ some b → s'.store b = s.store b) ∧
          sameButNext (s.store b) (s'.store b))) ∧
      s'.grey = s.grey ∧ s'.nextId = s.nextId ∧
      (∀ p, prev = some p → s'.head = s.head) := by
  have hanchor : anchor s prev = some a := chain_cursor hch
  have hchrest : Chain s.store ((s.store a).header.next) rest := chain_tail hch
  have hnotin : a ∉ rest := (List.nodup_cons.mp hnd).1
  have hndrest : rest.Nodup := (List.nodup_cons.mp hnd).2
  have hstore2 : ∀ x ∈ rest, s2.store x = s.store x := by
    intro x hx
    exact hs2other x (fun h => hnotin (h ▸ hx))
  have hanchor2 : anchor s2 (some a) = (s.store a).header.next := hs2next
  have hch2 : Chain s2.store (anchor s2 (some a)) rest := by
    rw [hanchor2]
    show chainb _ _ rest = true
    rw [chainb_congr rest s.store s2.store ((s.store a).header.next) hstore2]
    exact hchrest
  have hng2 : ∀ x ∈ rest, (s2.store x).header.color ≠ GcColor.Grey := by
    intro x hx
    rw [hstore2 x hx]
    exact hng x (List.mem_cons_of_mem a hx)
  rcases ihrest s2 (some a) fuel hch2 hndrest hng2
      (fun p hp2 => by cases hp2; exact hnotin) hfuel with
    ⟨s3, heq3, hch3, hent3, hfr3, hgrey3, hnid3, hhead3⟩
  refine ⟨s3, ?_, ?_, ?_, ?_, ?_, ?_, ?_, ?_⟩
  · rw [hstep]
    rw [hanchor2] at heq3
    exact heq3
  · have hbeq : ((s.store a).header.color == GcColor.White) = false := by
      simpa using hkeep
    have hsv : survivors s.store (a :: rest) = a :: survivors s.store rest := by
      simp [survivors, List.filter_cons, hbeq]
    rw [hsv]
    apply chain_cons_intro
    · cases prev with
      | none =>
        show s3.head = some a
        rw [hhead3 a rfl, hs2head]
        exact hanchor
      | some p =>
        have hpa : p ≠ a := fun h => hp p rfl (h ▸ List.mem_cons_self a rest)
        have hpr : p ∉ rest := fun h => hp p rfl (List.mem_cons_of_mem a h)
        have hfrp := hfr3 p hpr
        show (s3.store p).header.next = some a
        have hs3p : s3.store p = s.store p := by
          rw [hfrp.1 (fun h => hpa (Option.some_inj.mp h).symm)]
          exact hs2other p hpa
        rw [hs3p]
        exact hanchor
    · rw [survivors_congr rest s.store s2.store hstore2] at hch3
      exact hch3
  · exact (hfr3 a hnotin).2
  · intro x hx
    have := hent3 x hx
    rw [hstore2 x hx] at this
    exact this
  · intro b hb
    have hba : b ≠ a := fun h => hb (h ▸ List.mem_cons_self a rest)
    have hbr : b ∉ rest := fun h => hb (List.mem_cons_of_mem a h)
    have hfrb := hfr3 b hbr
    have hs3b : s3.store b = s.store b := by
      rw [hfrb.1 (fun h => hba (Option.some_inj.mp h).symm)]
      exact hs2other b hba
    exact ⟨fun _ => hs3b, by rw [hs3b]; exact ⟨rfl, rfl, rfl, rfl, rfl⟩⟩
  · rw [hgrey3, hs2grey]
  · rw [hnid3, hs2nid]
  · intro p hp2
    rw [hhead3 a rfl, hs2head]

/-- The sweep walk satisfies its full specification on every
duplicate-free, Grey-free list stretch. -/
theorem sweepGo_spec (l : List AllocId) : SweepSpec l := by
  induction l with
  | nil =>
    intro s prev fuel hch hnd hng hp hfuel
    have hanchor : anchor s prev = none := chain_eq_none hch
    refine ⟨s, ?_, ?_, ?_, ?_, rfl, rfl, fun p hp2 => rfl⟩
    · rw [hanchor]
      exact sweepGo_none fuel s prev
    · rw [hanchor]
      show chainb _ none (survivors s.store []) = true
      rfl
    · intro x hx
      exact absurd hx (List.not_mem_nil x)
    · intro b hb
      exact ⟨fun _ => rfl, ⟨rfl, rfl, rfl, rfl, rfl⟩⟩
  | cons a rest ih =>
    intro s prev fuel hch hnd hng hp hfuel
    have hanchor : anchor s prev = some a := chain_cursor hch
    have hchrest : Chain s.store ((s.store a).header.next) rest := chain_tail hch
    have hnotin : a ∉ rest := (List.nodup_cons.mp hnd).1
    have hndrest : rest.Nodup := (List.nodup_cons.mp hnd).2
    have hngrest : ∀ x ∈ rest, (s.store x).header.color ≠ GcColor.Grey :=
      fun x hx => hng x (List.mem_cons_of_mem a hx)
    cases fuel with
    | zero =>
      exfalso
      have hlen : (a :: rest).length = rest.length + 1 := rfl
      omega
    | succ fuel =>
      have hfuelrest : rest.length ≤ fuel := by
        have hlen : (a :: rest).length = rest.length + 1 := rfl
        omega
      cases hcolor : (s.store a).header.color with
      | Grey => exact absurd hcolor (hng a (List.mem_cons_self a rest))
      | Black =>
        rcases sweepGo_keep a rest ih s (s.setColor a GcColor.White) prev fuel
            hch hnd hng hp hfuelrest
            (fun x hx => by simp [hx])
            rfl rfl rfl
            (by simp)
            (by rw [hcolor]; exact fun h => GcColor.noConfusion h)
            (by rw [hanchor]; exact sweepGo_black fuel s a prev hcolor) with
          ⟨s3, hrun, hchain, hsame, hentrest, hframe, hgrey, hnid, hhead⟩
        refine ⟨s3, hrun, hchain, ?_, hframe, hgrey, hnid, hhead⟩
        intro x hx
        rcases List.mem_cons.mp hx with hxa | hxr
        · subst hxa
          obtain ⟨hc, hl2, hnt, hdc, hfr⟩ := hsame
          refine ⟨fun h => ?_, fun h => ?_, fun _ => ?_⟩
          · rw [hcolor] at h
            cases h
          · rw [hcolor] at h
            cases h
          · refine ⟨?_, ?_, ?_, ?_, ?_⟩
            · rw [hc]
              simp
            · rw [hfr]
              simp
            · rw [hl2]
              simp
            · rw [hnt]
              simp
            · rw [hdc]
              simp
        · exact hentrest x hxr
      | WhiteWeak =>
        rcases sweepGo_keep a rest ih s
            (if ((s.setColor a GcColor.White).store a).header.isLive then
              ((s.setColor a GcColor.White).setLive a false).dropInPlace a
             else s.setColor a GcColor.White) prev fuel
            hch hnd hng hp hfuelrest
            (fun x hx => by
              by_cases hlv : (s.store a).header.isLive = true <;> simp [hlv, hx])
            (by by_cases hlv : (s.store a).header.isLive = true <;> simp [hlv])
            (by by_cases hlv : (s.store a).header.isLive = true <;> simp [hlv])
            (by by_cases hlv : (s.store a).header.isLive = true <;> simp [hlv])
            (by by_cases hlv : (s.store a).header.isLive = true <;> simp [hlv])
            (by rw [hcolor]; exact fun h => GcColor.noConfusion h)
            (by rw [hanchor]; exact sweepGo_whiteWeak fuel s a prev hcolor) with
          ⟨s3, hrun, hchain, hsame, hentrest, hframe, hgrey, hnid, hhead⟩
        refine ⟨s3, hrun, hchain, ?_, hframe, hgrey, hnid, hhead⟩
        intro x hx
        rcases List.mem_cons.mp hx with hxa | hxr
        · subst hxa
          obtain ⟨hc, hl2, hnt, hdc, hfr⟩ := hsame
          refine ⟨fun h => ?_, fun _ => ?_, fun h => ?_⟩
          · rw [hcolor] at h
            cases h
          · by_cases hlv : (s.store x).header.isLive = true
            · refine ⟨?_, ?_, ?_, ?_, ?_⟩
              · rw [hc]
                simp [hlv]
              · rw [hfr]
                simp [hlv]
              · rw [hl2]
                simp [hlv]
              · rw [hnt]
                simp [hlv]
              · rw [hdc]
                simp [hlv]
            · have hlf : (s.store x).header.isLive = false := by
                cases h2 : (s.store x).header.isLive
                · rfl
                · exact absurd h2 hlv
              refine ⟨?_, ?_, ?_, ?_, ?_⟩
              · rw [hc]
                simp [hlf]
              · rw [hfr]
                simp [hlf]
              · rw [hl2]
                simp [hlf]
              · rw [hnt]
                simp [hlf]
              · rw [hdc]
                simp [hlf]
          · rw [hcolor] at h
            cases h
        · exact hentrest x hxr
      | White =>
        cases prev with
        | none =>
          have hstep : sweepGo (fuel + 1) s (anchor s none) none =
              sweepGo fuel
                (freeAlloc { s with head := (s.store a).header.next } a)
                ((s.store a).header.next) none := by
            rw [hanchor]
            exact sweepGo_white fuel s a none hcolor
          have hstore2 : ∀ x ∈ rest,
              (freeAlloc { s with head := (s.store a).header.next } a).store x =
                s.store x := by
            intro x hx
            have hxa : x ≠ a := fun h => hnotin (h ▸ hx)
            simp [hxa]
          have hanchor2 : anchor (freeAlloc { s with head := (s.store a).header.next } a)
              none = (s.store a).header.next := by
            show (freeAlloc { s with head := (s.store a).header.next } a).head = _
            simp
          have hch2 : Chain (freeAlloc { s with head := (s.store a).header.next } a).store
              (anchor (freeAlloc { s with head := (s.store a).header.next } a) none)
              rest := by
            rw [hanchor2]
            show chainb _ _ rest = true
            rw [chainb_congr rest s.store _ ((s.store a).header.next) hstore2]
            exact hchrest
          have hng2 : ∀ x ∈ rest,
              ((freeAlloc { s with head := (s.store a).header.next } a).store x).header.color ≠
                GcColor.Grey := by
            intro x hx
            rw [hstore2 x hx]
            exact hngrest x hx
          rcases ih (freeAlloc { s with head := (s.store a).header.next } a) none fuel
              hch2 hndrest hng2 (fun p hp2 => by cases hp2) hfuelrest with
            ⟨s3, heq3, hch3, hent3, hfr3, hgrey3, hnid3, hhead3⟩
          refine ⟨s3, ?_, ?_, ?_, ?_, ?_, ?_, ?_⟩
          · rw [hstep]
            rw [hanchor2] at heq3
            exact heq3
          · have hbeq : ((s.store a).header.color == GcColor.White) = true := by
              rw [hcolor]
              rfl
            have hsv : survivors s.store (a :: rest) = survivors s.store rest := by
              simp [survivors, List.filter_cons, hbeq]
            rw [hsv]
            rw [survivors_congr rest s.store _ hstore2] at hch3
            exact hch3
          · intro x hx
            rcases List.mem_cons.mp hx with hxa | hxr
            · subst hxa
              have hfra := hfr3 x hnotin
              have hs3a : s3.store x =
                  (freeAlloc { s with head := (s.store x).header.next } x).store x :=
                hfra.1 (fun h => Option.noConfusion h)
              refine ⟨fun _ => ?_, fun h => ?_, fun h => ?_⟩
              · refine ⟨?_, ?_, ?_⟩
                · rw [hs3a]
                  simp
                · rw [hs3a]
                  simp
                · rw [hs3a]
                  simp
              · rw [hcolor] at h
                cases h
              · rw [hcolor] at h
                cases h
            · have := hent3 x hxr
              rw [hstore2 x hxr] at this
              exact this
          · intro b hb
            have hba : b ≠ a := fun h => hb (h ▸ List.mem_cons_self a rest)
            have hbr : b ∉ rest := fun h => hb (List.mem_cons_of_mem a h)
            have hfrb := hfr3 b hbr
            have hs3b : s3.store b = s.store b := by
              rw [hfrb.1 (fun h => Option.noConfusion h)]
              simp [hba]
            exact ⟨fun _ => hs3b, by rw [hs3b]; exact ⟨rfl, rfl, rfl, rfl, rfl⟩⟩
          · rw [hgrey3]
            simp
          · rw [hnid3]
            simp
          · intro p hp2
            cases hp2
        | some p =>
          have hpa : p ≠ a := fun h => hp p rfl (h ▸ List.mem_cons_self a rest)
          have hpr : p ∉ rest := fun h => hp p rfl (List.mem_cons_of_mem a h)
          have hstep : sweepGo (fuel + 1) s (anchor s (some p)) (some p) =
              sweepGo fuel
                (freeAlloc (s.setNext p ((s.store a).header.next)) a)
                ((s.store a).header.next) (some p) := by
            rw [hanchor]
            exact sweepGo_white fuel s a (some p) hcolor
          have hstore2 : ∀ x ∈ rest,
              (freeAlloc (s.setNext p ((s.store a).header.next)) a).store x =
                s.store x := by
            intro x hx
            have hxa : x ≠ a := fun h => hnotin (h ▸ hx)
            have hxp : x ≠ p := fun h => hpr (h ▸ hx)
            simp [hxa, hxp]
          have hanchor2 : anchor (freeAlloc (s.setNext p ((s.store a).header.next)) a)
              (some p) = (s.store a).header.next := by
            show ((freeAlloc (s.setNext p ((s.store a).header.next)) a).store p).header.next = _
            simp [hpa]
          have hch2 : Chain (freeAlloc (s.setNext p ((s.store a).header.next)) a).store
              (anchor (freeAlloc (s.setNext p ((s.store a).header.next)) a) (some p))
              rest := by
            rw [hanchor2]
            show chainb _ _ rest = true
            rw [chainb_congr rest s.store _ ((s.store a).header.next) hstore2]
            exact hchrest
          have hng2 : ∀ x ∈ rest,
              ((freeAlloc (s.setNext p ((s.store a).header.next)) a).store x).header.color ≠
                GcColor.Grey := by
            intro x hx
            rw [hstore2 x hx]
            exact hngrest x hx
          rcases ih (freeAlloc (s.setNext p ((s.store a).header.next)) a) (some p) fuel
              hch2 hndrest hng2 (fun q hq => by cases hq; exact hpr) hfuelrest with
            ⟨s3, heq3, hch3, hent3, hfr3, hgrey3, hnid3, hhead3⟩
          refine ⟨s3, ?_, ?_, ?_, ?_, ?_, ?_, ?_⟩
          · rw [hstep]
            rw [hanchor2] at heq3
            exact heq3
          · have hbeq : ((s.store a).header.color == GcColor.White) = true := by
              rw [hcolor]
              rfl
            have hsv : survivors s.store (a :: rest) = survivors s.store rest := by
              simp [survivors, List.filter_cons, hbeq]
            rw [hsv]
            rw [survivors_congr rest s.store _ hstore2] at hch3
            exact hch3
          · intro x hx
            rcases List.mem_cons.mp hx with hxa | hxr
            · subst hxa
              have hfra := hfr3 x hnotin
              have hs3a : s3.store x =
                  (freeAlloc (s.setNext p ((s.store x).header.next)) x).store x :=
                hfra.1 (fun h => hpa (Option.some_inj.mp h))
              have hap : x ≠ p := fun h => hpa h.symm
              refine ⟨fun _ => ?_, fun h => ?_, fun h => ?_⟩
              · refine ⟨?_, ?_, ?_⟩
                · rw [hs3a]
                  simp [hap]
                · rw [hs3a]
                  simp [hap]
                · rw [hs3a]
                  simp [hap]
              · rw [hcolor] at h
                cases h
              · rw [hcolor] at h
                cases h
            · have := hent3 x hxr
              rw [hstore2 x hxr] at this
              exact this
          · intro b hb
            have hba : b ≠ a := fun h => hb (h ▸ List.mem_cons_self a rest)
            have hbr : b ∉ rest := fun h => hb (List.mem_cons_of_mem a h)
            have hfrb := hfr3 b hbr
            by_cases hbp : b = p
            · subst hbp
              constructor
              · intro hne
                exact absurd rfl hne
              · have hs2p : (freeAlloc (s.setNext b ((s.store a).header.next)) a).store b =
                    { s.store b with header :=
                        { (s.store b).header with next := (s.store a).header.next } } := by
                  simp [hba]
                have h1 : sameButNext (s.store b)
                    ((freeAlloc (s.setNext b ((s.store a).header.next)) a).store b) := by
                  rw [hs2p]
                  exact ⟨rfl, rfl, rfl, rfl, rfl⟩
                exact sameButNext_trans h1 hfrb.2
            · have hs3b : s3.store b = s.store b := by
                rw [hfrb.1 (fun h => hbp (Option.some_inj.mp h).symm)]
                simp [hba, hbp]
              exact ⟨fun _ => hs3b, by rw [hs3b]; exact ⟨rfl, rfl, rfl, rfl, rfl⟩⟩
          · rw [hgrey3]
            simp
          · rw [hnid3]
            simp
          · intro q hq
            cases hq
            rw [hhead3 p rfl]
            simp

/-- C1: when the sweep walk completes over the (duplicate-free, Grey-free)
allocation list, every allocation remaining in the list has color White
and none has color Black: the Black arm repaints to White, the WhiteWeak
arm repaints to White, and the White arm unlinks the node from the list. -/
theorem claim_c1 (s s' : State) (l : List AllocId) (fuel : Nat)
    (hchain : Chain s.store s.head l) (hnd : l.Nodup)
    (hng : ∀ a ∈ l, (s.store a).header.color ≠ GcColor.Grey)
    (hfuel : l.length ≤ fuel)
    (hrun : s.doSweep fuel = some s') :
    Chain s'.store s'.head (survivors s.store l) ∧
      ∀ a ∈ survivors s.store l,
        (s'.store a).header.color = GcColor.White ∧
          (s'.store a).header.color ≠ GcColor.Black := by
  rcases sweepGo_spec l s none fuel hchain hnd hng (fun p hp => by cases hp) hfuel with
    ⟨s3, heq, hch, hent, hfr, hgrey, hnid, hhead⟩
  have hs3 : s3 = s' := by
    have heq2 : s.doSweep fuel = some s3 := heq
    rw [heq2] at hrun
    exact Option.some_inj.mp hrun
  subst hs3
  constructor
  · exact hch
  · intro x hx
    have hxl : x ∈ l := List.mem_of_mem_filter hx
    have hxw : (s.store x).header.color ≠ GcColor.White := by
      have := List.of_mem_filter hx
      simpa using this
    have hentx := hent x hxl
    cases hcx : (s.store x).header.color with
    | White => exact absurd hcx hxw
    | Grey => exact absurd hcx (hng x hxl)
    | WhiteWeak =>
      have hres := hentx.2.1 hcx
      exact ⟨hres.1, by rw [hres.1]; exact fun h => GcColor.noConfusion h⟩
    | Black =>
      have hres := hentx.2.2 hcx
      exact ⟨hres.1, by rw [hres.1]; exact fun h => GcColor.noConfusion h⟩

/-- C1 witness: sweeping the three-allocation example list leaves the two
non-White allocations linked and White. -/
theorem claim_c1_witness :
    Chain exSwept.store exSwept.head (survivors exSweep.store [2, 1, 0]) ∧
      ∀ a ∈ survivors exSweep.store [2, 1, 0],
        (exSwept.store a).header.color = GcColor.White ∧
          (exSwept.store a).header.color ≠ GcColor.Black :=
  claim_c1 exSweep exSwept [2, 1, 0] 3 (by decide) (by decide) (by decide)
    (by decide) rfl

/-- C3: an allocation that sweep finds with color WhiteWeak is kept in the
allocation list, repainted White, its live flag ends cleared and, when the
live flag was set, its payload is dropped in place exactly once (otherwise
its drop count is untouched), while its memory is not deallocated. -/
theorem claim_c3 (s s' : State) (l : List AllocId) (fuel : Nat) (a : AllocId)
    (hchain : Chain s.store s.head l) (hnd : l.Nodup)
    (hng : ∀ x ∈ l, (s.store x).header.color ≠ GcColor.Grey)
    (hfuel : l.length ≤ fuel)
    (ha : a ∈ l)
    (hw : (s.store a).header.color = GcColor.WhiteWeak)
    (hrun : s.doSweep fuel = some s') :
    a ∈ survivors s.store l ∧
      Chain s'.store s'.head (survivors s.store l) ∧
      (s'.store a).header.color = GcColor.White ∧
      (s'.store a).freed = (s.store a).freed ∧
      (s'.store a).header.isLive = false ∧
      ((s.store a).header.isLive = true →
        (s'.store a).dropCount = (s.store a).dropCount + 1) ∧
      ((s.store a).header.isLive = false →
        (s'.store a).dropCount = (s.store a).dropCount) := by
  rcases sweepGo_spec l s none fuel hchain hnd hng (fun p hp => by cases hp) hfuel with
    ⟨s3, heq, hch, hent, hfr, hgrey, hnid, hhead⟩
  have hs3 : s3 = s' := by
    have heq2 : s.doSweep fuel = some s3 := heq
    rw [heq2] at hrun
    exact Option.some_inj.mp hrun
  subst hs3
  have hres := (hent a ha).2.1 hw
  refine ⟨?_, hch, hres.1, hres.2.1, hres.2.2.1, ?_, ?_⟩
  · refine List.mem_filter.mpr ⟨ha, ?_⟩
    rw [hw]
    rfl
  · intro hl
    rw [hres.2.2.2.2, hl]
    rfl
  · intro hl
    rw [hres.2.2.2.2, hl]
    rfl

/-- C3 witness: in the example list, the WhiteWeak live allocation 1 stays
linked, turns White and dead, its payload dropped once, its memory kept. -/
theorem claim_c3_witness :
    1 ∈ survivors exSweep.store [2, 1, 0] ∧
      Chain exSwept.store exSwept.head (survivors exSweep.store [2, 1, 0]) ∧
      (exSwept.store 1).header.color = GcColor.White ∧
      (exSwept.store 1).freed = (exSweep.store 1).freed ∧
      (exSwept.store 1).header.isLive = false ∧
      ((exSweep.store 1).header.isLive = true →
        (exSwept.store 1).dropCount = (exSweep.store 1).dropCount + 1) ∧
      ((exSweep.store 1).header.isLive = false →
        (exSwept.store 1).dropCount = (exSweep.store 1).dropCount) :=
  claim_c3 exSweep exSwept [2, 1, 0] 3 1 (by decide) (by decide) (by decide)
    (by decide) (by decide) (by decide) rfl

/-! The engine lifecycle: every reachable state keeps the drop protocol. -/

@[simp] theorem allocate_store (s : State) (nt : Bool) (b : AllocId) :
    (s.allocate nt).store b =
      if b = s.nextId then
        { header :=
            { next := s.head
              color := GcColor.White
              needsTrace := nt
              isLive := true }
          dropCount := 0
          freed := false }
      else s.store b := rfl

@[simp] theorem allocate_head (s : State) (nt : Bool) :
    (s.allocate nt).head = some s.nextId := rfl

@[simp] theorem allocate_nextId (s : State) (nt : Bool) :
    (s.allocate nt).nextId = s.nextId + 1 := rfl

@[simp] theorem allocate_grey (s : State) (nt : Bool) :
    (s.allocate nt).grey = s.grey := rfl

/-- The list shape only depends on the next links of its members. -/
theorem chainb_congr_next (l : List AllocId) :
    ∀ (store₁ store₂ : AllocId → Alloc) (cur : Option AllocId),
    (∀ x ∈ l, (store₂ x).header.next = (store₁ x).header.next) →
    chainb store₂ cur l = chainb store₁ cur l := by
  induction l with
  | nil =>
    intro s1 s2 cur _
    cases cur <;> rfl
  | cons a l ih =>
    intro s1 s2 cur h
    cases cur with
    | none => rfl
    | some b =>
      simp only [chainb]
      by_cases hba : b = a
      · subst hba
        rw [h b (List.mem_cons_self b l),
          ih s1 s2 ((s1 b).header.next) (fun x hx => h x (List.mem_cons_of_mem b hx))]
      · have hbeq : (b == a) = false := by simp [hba]
        rw [hbeq]
        simp

/-- A cursor determines the list it threads. -/
theorem chain_det (l₁ : List AllocId) :
    ∀ (store : AllocId → Alloc) (cur : Option AllocId) (l₂ : List AllocId),
    Chain store cur l₁ → Chain store cur l₂ → l₁ = l₂ := by
  induction l₁ with
  | nil =>
    intro store cur l₂ h1 h2
    have hc := chain_eq_none h1
    cases l₂ with
    | nil => rfl
    | cons b l₂ =>
      have hcb := chain_cursor h2
      rw [hc] at hcb
      exact Option.noConfusion hcb
  | cons a l ih =>
    intro store cur l₂ h1 h2
    have hc := chain_cursor h1
    cases l₂ with
    | nil =>
      have hn := chain_eq_none h2
      rw [hn] at hc
      exact Option.noConfusion hc
    | cons b l₂ =>
      have hcb := chain_cursor h2
      rw [hc] at hcb
      have hab : a = b := Option.some_inj.mp hcb
      subst hab
      rw [ih store ((store a).header.next) l₂ (chain_tail h1) (chain_tail h2)]

theorem markFrame_refl (s : State) : MarkFrame s s :=
  ⟨rfl, rfl, fun _ => ⟨rfl, rfl, rfl, rfl, rfl⟩⟩

theorem markFrame_trans {s1 s2 s3 : State} (h1 : MarkFrame s1 s2)
    (h2 : MarkFrame s2 s3) : MarkFrame s1 s3 := by
  obtain ⟨a1, a2, a3⟩ := h1
  obtain ⟨b1, b2, b3⟩ := h2
  refine ⟨b1.trans a1, b2.trans a2, fun b => ?_⟩
  obtain ⟨x1, x2, x3, x4, x5⟩ := a3 b
  obtain ⟨y1, y2, y3, y4, y5⟩ := b3 b
  exact ⟨y1.trans x1, y2.trans x2, y3.trans x3, y4.trans x4, y5.trans x5⟩

theorem markFrame_setColor (s : State) (a : AllocId) (c : GcColor) :
    MarkFrame s (s.setColor a c) := by
  refine ⟨rfl, rfl, fun b => ?_⟩
  by_cases hba : b = a <;> simp [hba]

theorem markFrame_pushGrey (s : State) (a : AllocId) :
    MarkFrame s (s.pushGrey a) :=
  ⟨rfl, rfl, fun _ => ⟨rfl, rfl, rfl, rfl, rfl⟩⟩

theorem markFrame_setGrey (s : State) (g : List AllocId) :
    MarkFrame s { s with grey := g } :=
  ⟨rfl, rfl, fun _ => ⟨rfl, rfl, rfl, rfl, rfl⟩⟩

theorem markFrame_trace (s : State) (a : AllocId) : MarkFrame s (s.trace a) := by
  by_cases hw : (s.store a).header.color = GcColor.White ∨
      (s.store a).header.color = GcColor.WhiteWeak
  · cases hnt : (s.store a).header.needsTrace with
    | true =>
      rw [trace_eq_push s a hw hnt]
      exact markFrame_trans (markFrame_setColor s a GcColor.Grey)
        (markFrame_pushGrey _ a)
    | false =>
      rw [trace_eq_black s a hw hnt]
      exact markFrame_setColor s a GcColor.Black
  · rw [trace_eq_skip s a hw]
    exact markFrame_refl s

theorem markFrame_traceWeak (s : State) (a : AllocId) :
    MarkFrame s (s.traceWeak a) := by
  by_cases hw : (s.store a).header.color = GcColor.White
  · rw [traceWeak_eq_set s a hw]
    exact markFrame_setColor s a GcColor.WhiteWeak
  · rw [traceWeak_eq_skip s a hw]
    exact markFrame_refl s

theorem markFrame_rescurrect (s : State) (a : AllocId) :
    MarkFrame s (s.rescurrect a) := by
  by_cases hw : (s.store a).header.color = GcColor.White ∨
      (s.store a).header.color = GcColor.WhiteWeak
  · rw [rescurrect_eq_push s a hw]
    exact markFrame_trans (markFrame_setColor s a GcColor.Grey)
      (markFrame_pushGrey _ a)
  · rw [rescurrect_eq_skip s a hw]
    exact markFrame_refl s

theorem markFrame_applyOp (s : State) (op : VisitOp) :
    MarkFrame s (s.applyOp op) := by
  cases op with
  | strong a => exact markFrame_trace s a
  | weak a => exact markFrame_traceWeak s a

theorem markFrame_applyOps (ops : List VisitOp) :
    ∀ s : State, MarkFrame s (s.applyOps ops) := by
  induction ops with
  | nil => exact fun s => markFrame_refl s
  | cons op ops ih =>
    intro s
    rw [applyOps_cons]
    exact markFrame_trans (markFrame_applyOp s op) (ih (s.applyOp op))

theorem markFrame_markStepOk (tf : AllocId → List VisitOp) (s : State)
    (a : AllocId) (rest : List AllocId) :
    MarkFrame s (State.markStepOk tf s a rest) := by
  unfold State.markStepOk
  exact markFrame_trans (markFrame_setGrey s rest)
    (markFrame_trans (markFrame_applyOps (tf a) _) (markFrame_setColor _ a GcColor.Black))

theorem markFrame_drainGrey (tf : AllocId → List VisitOp) :
    ∀ (fuel : Nat) (s s' : State),
    State.drainGrey tf fuel s = some s' → MarkFrame s s' := by
  intro fuel
  induction fuel with
  | zero =>
    intro s s' h
    cases hg : s.grey with
    | nil =>
      simp only [State.drainGrey, hg] at h
      cases h
      exact markFrame_refl s
    | cons a rest =>
      simp [State.drainGrey, hg] at h
  | succ n ih =>
    intro s s' h
    cases hg : s.grey with
    | nil =>
      simp only [State.drainGrey, hg] at h
      cases h
      exact markFrame_refl s
    | cons a rest =>
      simp only [State.drainGrey, hg] at h
      exact markFrame_trans (markFrame_markStepOk tf s a rest) (ih _ _ h)

theorem markFrame_doMark (tf : AllocId → List VisitOp) (fuel : Nat)
    (rootOps : List VisitOp) (s s' : State)
    (h : State.doMark tf fuel rootOps s = some s') : MarkFrame s s' := by
  unfold State.doMark at h
  exact markFrame_trans (markFrame_applyOps rootOps s)
    (markFrame_drainGrey tf fuel _ s' h)

theorem markFrame_markStepAborted (tf : AllocId → List VisitOp) (k : Nat)
    (s s' : State) (h : State.markStepAborted tf k s = some s') :
    MarkFrame s s' := by
  cases hg : s.grey with
  | nil => simp [State.markStepAborted, hg] at h
  | cons a rest =>
    simp only [State.markStepAborted, hg] at h
    cases h
    exact markFrame_trans (markFrame_setGrey s rest)
      (markFrame_trans (markFrame_applyOps ((tf a).take k) _)
        (markFrame_pushGrey _ a))

theorem markFrame_foldlRescurrect (ts : List AllocId) :
    ∀ s : State, MarkFrame s (ts.foldl State.rescurrect s) := by
  induction ts with
  | nil => exact fun s => markFrame_refl s
  | cons t ts ih =>
    intro s
    rw [List.foldl_cons]
    exact markFrame_trans (markFrame_rescurrect s t) (ih (s.rescurrect t))

theorem engineInv_of_markFrame (s s' : State) (hmf : MarkFrame s s')
    (hinv : EngineInv s) : EngineInv s' := by
  obtain ⟨hgood, l, hch, hnd, hl⟩ := hinv
  obtain ⟨hh, hn, hb⟩ := hmf
  refine ⟨?_, l, ?_, hnd, ?_⟩
  · intro a
    obtain ⟨h1, h2, h3, h4, h5⟩ := hb a
    obtain ⟨g1, g2⟩ := hgood a
    constructor
    · rw [h4]
      exact g1
    · intro hf hl2
      rw [h5] at hf
      rw [h2] at hl2
      rw [h4]
      exact g2 hf hl2
  · show chainb s'.store s'.head l = true
    rw [hh, chainb_congr_next l s.store s'.store s.head (fun x _ => (hb x).1)]
    exact hch
  · intro a hal
    obtain ⟨h1, h2, h3, h4, h5⟩ := hb a
    exact ⟨by rw [h5]; exact (hl a hal).1, by rw [hn]; exact (hl a hal).2⟩

theorem engineInv_allocate (s : State) (nt : Bool) (hinv : EngineInv s) :
    EngineInv (s.allocate nt) := by
  obtain ⟨hgood, l, hch, hnd, hl⟩ := hinv
  have hfresh : ∀ x ∈ l, x ≠ s.nextId := by
    intro x hx
    exact Nat.ne_of_lt (hl x hx).2
  refine ⟨?_, s.nextId :: l, ?_, ?_, ?_⟩
  · intro a
    by_cases ha : a = s.nextId
    · subst ha
      constructor <;> simp
    · have hsa : (s.allocate nt).store a = s.store a := by
        simp [ha]
      rw [hsa]
      exact hgood a
  · apply chain_cons_intro
    · simp
    · have hx : ((s.allocate nt).store s.nextId).header.next = s.head := by
        simp
      rw [hx]
      show chainb _ _ l = true
      rw [chainb_congr_next l s.store _ s.head
        (fun x hx2 => by simp [hfresh x hx2])]
      exact hch
  · refine List.nodup_cons.mpr ⟨?_, hnd⟩
    intro hmem
    exact hfresh s.nextId hmem rfl
  · intro a hal
    rcases List.mem_cons.mp hal with h | h
    · subst h
      constructor
      · simp
      · simp only [allocate_nextId]
        exact Nat.lt_succ_self _
    · have hne := hfresh a h
      constructor
      · rw [show (s.allocate nt).store a = s.store a from by simp [hne]]
        exact (hl a h).1
      · simp only [allocate_nextId]
        exact Nat.lt_succ_of_lt (hl a h).2

theorem engineInv_sweep (s s' : State) (fuel : Nat)
    (hng : ∀ a, a < s.nextId → (s.store a).header.color ≠ GcColor.Grey)
    (hfuel : ∀ l, Chain s.store s.head l → l.length ≤ fuel)
    (hrun : s.doSweep fuel = some s')
    (hinv : EngineInv s) : EngineInv s' := by
  obtain ⟨hgood, l, hch, hnd, hl⟩ := hinv
  have hngl : ∀ a ∈ l, (s.store a).header.color ≠ GcColor.Grey :=
    fun a ha => hng a (hl a ha).2
  rcases sweepGo_spec l s none fuel hch hnd hngl (fun p hp => by cases hp)
      (hfuel l hch) with ⟨s3, heq, hch3, hent, hfr, hgrey, hnid, hhead⟩
  have hs3 : s3 = s' := by
    have heq2 : s.doSweep fuel = some s3 := heq
    rw [heq2] at hrun
    exact Option.some_inj.mp hrun
  subst hs3
  constructor
  · intro a
    by_cases hal : a ∈ l
    · have hfreed : (s.store a).freed = false := (hl a hal).1
      obtain ⟨g1, g2⟩ := hgood a
      have hentx := hent a hal
      cases hca : (s.store a).header.color with
      | Grey => exact absurd hca (hngl a hal)
      | White =>
        obtain ⟨f1, f2, f3⟩ := hentx.1 hca
        constructor
        · by_cases hlv : (s.store a).header.isLive = true
          · rw [f3, g2 hfreed hlv, if_pos hlv]
          · rw [f3, if_neg hlv]
            omega
        · intro hf _
          rw [f1] at hf
          cases hf
      | WhiteWeak =>
        obtain ⟨f1, f2, f3, f4, f5⟩ := hentx.2.1 hca
        constructor
        · by_cases hlv : (s.store a).header.isLive = true
          · rw [f5, g2 hfreed hlv, if_pos hlv]
          · rw [f5, if_neg hlv]
            omega
        · intro _ hl2
          rw [f3] at hl2
          cases hl2
      | Black =>
        obtain ⟨f1, f2, f3, f4, f5⟩ := hentx.2.2 hca
        constructor
        · rw [f5]
          exact g1
        · intro hf hl2
          rw [f2] at hf
          rw [f3] at hl2
          rw [f5]
          exact g2 hf hl2
    · have hsame := (hfr a hal).1 (fun h => Option.noConfusion h)
      rw [hsame]
      exact hgood a
  · refine ⟨survivors s.store l, hch3, hnd.filter _, ?_⟩
    intro a hal
    have hala : a ∈ l := List.mem_of_mem_filter hal
    have hxw : (s.store a).header.color ≠ GcColor.White := by
      have := List.of_mem_filter hal
      simpa using this
    have hentx := hent a hala
    cases hca : (s.store a).header.color with
    | Grey => exact absurd hca (hngl a hala)
    | White => exact absurd hca hxw
    | WhiteWeak =>
      obtain ⟨f1, f2, f3, f4, f5⟩ := hentx.2.1 hca
      refine ⟨?_, ?_⟩
      · rw [f2]
        exact (hl a hala).1
      · rw [hnid]
        exact (hl a hala).2
    | Black =>
      obtain ⟨f1, f2, f3, f4, f5⟩ := hentx.2.2 hca
      refine ⟨?_, ?_⟩
      · rw [f2]
        exact (hl a hala).1
      · rw [hnid]
        exact (hl a hala).2

theorem dropAllGo_nil (fuel : Nat) (s : State) :
    dropAllGo fuel s none = some s := by
  cases fuel <;> rfl

theorem dropAllGo_succ (fuel : Nat) (s : State) (a : AllocId) :
    dropAllGo (fuel + 1) s (some a) =
      dropAllGo fuel (freeAlloc s a) ((s.store a).header.next) := rfl

/-- Specification of the teardown walk: every listed allocation is freed,
its payload dropped exactly when it was still live; nothing else is
touched. -/
theorem dropAllGo_spec (l : List AllocId) :
    ∀ (s : State) (cur : Option AllocId) (fuel : Nat),
    Chain s.store cur l → l.Nodup → l.length ≤ fuel →
    ∃ s', dropAllGo fuel s cur = some s' ∧
      (∀ a ∈ l, (s'.store a).freed = true ∧
        (s'.store a).header.isLive = (s.store a).header.isLive ∧
        (s'.store a).dropCount = (s.store a).dropCount +
          (if (s.store a).header.isLive then 1 else 0)) ∧
      (∀ b, b ∉ l → s'.store b = s.store b) ∧
      s'.grey = s.grey ∧ s'.nextId = s.nextId ∧ s'.head = s.head := by
  induction l with
  | nil =>
    intro s cur fuel hch hnd hfuel
    have hc := chain_eq_none hch
    refine ⟨s, ?_, ?_, ?_, rfl, rfl, rfl⟩
    · rw [hc]
      exact dropAllGo_nil fuel s
    · intro a ha
      exact absurd ha (List.not_mem_nil a)
    · intro b _
      rfl
  | cons a rest ih =>
    intro s cur fuel hch hnd hfuel
    have hc := chain_cursor hch
    have hchrest := chain_tail hch
    have hnotin : a ∉ rest := (List.nodup_cons.mp hnd).1
    have hndrest := (List.nodup_cons.mp hnd).2
    cases fuel with
    | zero =>
      exfalso
      have hlen : (a :: rest).length = rest.length + 1 := rfl
      omega
    | succ fuel =>
      have hfuelrest : rest.length ≤ fuel := by
        have hlen : (a :: rest).length = rest.length + 1 := rfl
        omega
      have hstore2 : ∀ x ∈ rest, (freeAlloc s a).store x = s.store x := by
        intro x hx
        have hxa : x ≠ a := fun h => hnotin (h ▸ hx)
        simp [hxa]
      have hch2 : Chain (freeAlloc s a).store ((s.store a).header.next) rest := by
        show chainb _ _ rest = true
        rw [chainb_congr rest s.store _ ((s.store a).header.next) hstore2]
        exact hchrest
      rcases ih (freeAlloc s a) ((s.store a).header.next) fuel hch2 hndrest
          hfuelrest with ⟨s3, heq3, hent3, hfr3, hgrey3, hnid3, hhead3⟩
      refine ⟨s3, ?_, ?_, ?_, ?_, ?_, ?_⟩
      · rw [hc, dropAllGo_succ]
        exact heq3
      · intro x hx
        rcases List.mem_cons.mp hx with hxa | hxr
        · subst hxa
          have hs3a : s3.store x = (freeAlloc s x).store x := hfr3 x hnotin
          rw [hs3a]
          refine ⟨?_, ?_, ?_⟩ <;> simp
        · have := hent3 x hxr
          rw [hstore2 x hxr] at this
          exact this
      · intro b hb
        have hba : b ≠ a := fun h => hb (h ▸ List.mem_cons_self a rest)
        have hbr : b ∉ rest := fun h => hb (List.mem_cons_of_mem a h)
        rw [hfr3 b hbr]
        simp [hba]
      · rw [hgrey3]
        simp
      · rw [hnid3]
        simp
      · rw [hhead3]
        simp

theorem engineInv_teardown (s s' : State) (fuel : Nat)
    (hfuel : ∀ l, Chain s.store s.head l → l.length ≤ fuel)
    (hrun : s.teardown fuel = some s')
    (hinv : EngineInv s) : EngineInv s' := by
  obtain ⟨hgood, l, hch, hnd, hl⟩ := hinv
  rcases dropAllGo_spec l s s.head fuel hch hnd (hfuel l hch) with
    ⟨s3, heq3, hent3, hfr3, hgrey3, hnid3, hhead3⟩
  unfold State.teardown at hrun
  rw [heq3] at hrun
  simp only [Option.map_some'] at hrun
  have hs' : s' = { s3 with head := none } := (Option.some_inj.mp hrun).symm
  subst hs'
  constructor
  · intro a
    show GoodAlloc (s3.store a)
    by_cases hal : a ∈ l
    · obtain ⟨f1, f2, f3⟩ := hent3 a hal
      obtain ⟨g1, g2⟩ := hgood a
      constructor
      · by_cases hlv : (s.store a).header.isLive = true
        · rw [f3, g2 (hl a hal).1 hlv, if_pos hlv]
        · rw [f3, if_neg hlv]
          omega
      · intro hf _
        rw [f1] at hf
        cases hf
    · rw [hfr3 a hal]
      exact hgood a
  · refine ⟨[], ?_, List.nodup_nil, ?_⟩
    · rfl
    · intro a ha
      exact absurd ha (List.not_mem_nil a)

theorem engineInv_init : EngineInv initState := by
  constructor
  · intro a
    constructor
    · exact Nat.zero_le 1
    · intro _ hl2
      cases hl2
  · exact ⟨[], rfl, List.nodup_nil, fun a ha => absurd ha (List.not_mem_nil a)⟩

/-- Every state the host can reach keeps the engine invariant. -/
theorem engineInv_reached (s : State) (h : Reached s) : EngineInv s := by
  induction h with
  | init => exact engineInv_init
  | alloc nt _ ih => exact engineInv_allocate _ nt ih
  | mark tf fuel rootOps _ hrun ih =>
    exact engineInv_of_markFrame _ _ (markFrame_doMark tf fuel rootOps _ _ hrun) ih
  | markAbort tf k _ hrun ih =>
    exact engineInv_of_markFrame _ _ (markFrame_markStepAborted tf k _ _ hrun) ih
  | finalize ts _ ih =>
    exact engineInv_of_markFrame _ _ (markFrame_foldlRescurrect ts _) ih
  | sweep fuel _ hng hfuel hrun ih =>
    exact engineInv_sweep _ _ fuel hng hfuel hrun ih
  | teardown fuel _ hfuel hrun ih =>
    exact engineInv_teardown _ _ fuel hfuel hrun ih

/-- C10: over the whole lifetime of the engine - any number of
allocations, marks (completed or aborted by a user panic), finalization
resurrects, sweep cycles and the final teardown - the payload destructor
of every allocation runs at most once: the WhiteWeak sweep arm clears the
live flag before dropping, and the White sweep arm and free_alloc (also
used by teardown) drop the payload only while the live flag is still
set. -/
theorem claim_c10 (s : State) (h : Reached s) (a : AllocId) :
    (s.store a).dropCount ≤ 1 :=
  ((engineInv_reached s h).1 a).1

/-- C10 witness: allocate, run a full collection cycle, then tear the
engine down; the allocation was dropped exactly once, never twice. -/
theorem claim_c10_witness : (exTorn.store 0).dropCount ≤ 1 := by
  have hfuel1 : ∀ l, Chain exMarkedB.store exMarkedB.head l → l.length ≤ 1 := by
    intro l hl
    rw [chain_det l exMarkedB.store exMarkedB.head [0] hl (by decide)]
    decide
  have hfuel2 : ∀ l, Chain exCollected.store exCollected.head l → l.length ≤ 1 := by
    intro l hl
    rw [chain_det l exCollected.store exCollected.head [0] hl (by decide)]
    decide
  exact claim_c10 exTorn
    (Reached.teardown 1
      (Reached.sweep 1
        (Reached.mark tfEmpty 2 [VisitOp.strong 0] (Reached.alloc true Reached.init) rfl)
        (by decide) hfuel1 rfl)
      hfuel2 rfl) 0

end Tei
